import Mathlib

/-!
# BigFive financial analytics platform — verification of the ETL core

Shallow embedding of the Bronze → Silver → Gold incremental pipeline
(`src/backend/etl/bronze_etl.py`, `silver_etl.py`, `gold_etl.py`,
`rebuild_gold.py`).

Modelling conventions:
* BigQuery `FLOAT64` values are modelled as exact rationals `ℚ`; nullable
  columns as `Option ℚ`.  `SAFE_DIVIDE(a, b)` is `none` when `b = 0`.
* A timestamp is a pair `(day, tod)` (calendar day of the instant, time
  within the day), ordered lexicographically; `DATE(timestamp)` is `day`.
* `STDDEV` is the sample standard deviation; since square roots are not
  rational, the embedding is parametric in a function `sq : ℚ → ℚ` standing
  for the real square root applied to the sample variance.  Every theorem
  below either holds for all `sq` or does not depend on it.
* SQL window functions `OVER (PARTITION BY ticker ORDER BY trade_date ...)`
  are embedded per ticker over the list of that ticker's rows sorted by
  `trade_date` ascending; row `i` (0-based) is the `(i+1)`-st observation.
  Silver and Gold rows are keyed by `(trade_date, ticker)`, so dates are
  distinct within a partition and the sort order is total.
-/

namespace BigFive

/-- Sum of a list of rationals. -/
def qsum (l : List ℚ) : ℚ := l.foldr (· + ·) 0

/-- `AVG` over a (non-empty) window frame. -/
def avgQ (l : List ℚ) : ℚ := qsum l / l.length

/-- BigQuery `SAFE_DIVIDE`: `NULL` on a zero divisor. -/
def safeDiv (a b : ℚ) : Option ℚ := if b = 0 then none else some (a / b)

/-- Frame of `ROWS BETWEEN k PRECEDING AND CURRENT ROW` under
`ORDER BY trade_date` **ascending**, for the row at ascending index `i`:
the elements at indices `max 0 (i-k) .. i`, in ascending date order. -/
def ascWin (k : Nat) (xs : List ℚ) (i : Nat) : List ℚ :=
  (xs.take (i + 1)).drop (i + 1 - (k + 1))

/-- Frame of `ROWS BETWEEN k PRECEDING AND CURRENT ROW` under
`ORDER BY trade_date` **descending**, for the row at ascending index `i`.
In descending date order the rows preceding the current row are the rows
with **later** dates, so the frame is the elements at ascending indices
`i .. min (i+k) (n-1)`, aggregated in descending date order
(latest date first, the current row last). -/
def descFrame {α : Type} (k : Nat) (xs : List α) (i : Nat) : List α :=
  ((xs.drop i).take (k + 1)).reverse

/-- `Σ_{off < n} d^off`, the denominator of the normalized EMA weights. -/
def geomSum (d : ℚ) (n : Nat) : ℚ := qsum ((List.range n).map (d ^ ·))

/-- `SUM(v * POW(d, off))` over an array `a` with `off` the 0-based
position in the array (`UNNEST(a) AS v WITH OFFSET off`). -/
def wdot (d p : ℚ) : List ℚ → ℚ
  | [] => 0
  | v :: vs => p * v + wdot d (p * d) vs

/-- The EMA expression shared by Silver and Gold
(`silver_etl.py` lines 156–163, `gold_etl.py` lines 151–163):
`CASE WHEN ARRAY_LENGTH(arr) = N THEN (SELECT SUM(v*POW(d,off))/SUM(POW(d,off))
FROM UNNEST(arr) AS v WITH OFFSET off) ELSE NULL END`
where `arr = ARRAY_AGG(close) OVER (PARTITION BY ticker ORDER BY trade_date
DESC ROWS BETWEEN (N-1) PRECEDING AND CURRENT ROW)`. -/
def emaArr (n : Nat) (d : ℚ) (xs : List ℚ) (i : Nat) : Option ℚ :=
  let a := descFrame (n - 1) xs i
  if a.length = n then some (wdot d 1 a / geomSum d n) else none

/-- `ema_12`, decay `11/13` (comment in the source: alpha = 2/13). -/
def ema12 (xs : List ℚ) (i : Nat) : Option ℚ := emaArr 12 (11 / 13) xs i

/-- `ema_26`, decay `25/27` (comment in the source: alpha = 2/27). -/
def ema26 (xs : List ℚ) (i : Nat) : Option ℚ := emaArr 26 (25 / 27) xs i

/-- `macd_line = ema_12 - ema_26`, `NULL` when either operand is `NULL`
(in Gold the guard `ARRAY_LENGTH(arr12) = 12 AND ARRAY_LENGTH(arr26) = 26`
is equivalent). -/
def macdLine (xs : List ℚ) (i : Nat) : Option ℚ :=
  match ema12 xs i, ema26 xs i with
  | some a, some b => some (a - b)
  | _, _ => none

/-- `SUM(v * POW(d, off))` over an array that may contain `NULL` elements:
SQL `SUM` skips `NULL` products, while the offset still advances.
(Used only under a guard that makes the array contain at least one
non-`NULL` element, so the SQL `SUM` is itself non-`NULL`.) -/
def wdotO (d p : ℚ) : List (Option ℚ) → ℚ
  | [] => 0
  | none :: vs => wdotO d (p * d) vs
  | some v :: vs => p * v + wdotO d (p * d) vs

/-- `macd_signal` (`silver_etl.py` lines 189–202, `gold_etl.py` 228–244):
the same normalized-weight scheme with decay `0.8` applied to
`arr_signal = ARRAY_AGG(macd_line) OVER (PARTITION BY ticker ORDER BY
trade_date DESC ROWS BETWEEN 8 PRECEDING AND CURRENT ROW)`, guarded by
`macd_line IS NOT NULL AND ARRAY_LENGTH(arr_signal) = 9`. -/
def macdSignal (xs : List ℚ) (i : Nat) : Option ℚ :=
  let ms := (List.range xs.length).map (macdLine xs)
  let a := descFrame 8 ms i
  if (macdLine xs i).isSome ∧ a.length = 9 then
    some (wdotO (4 / 5) 1 a / geomSum (4 / 5) 9)
  else none

/-- `macd_histogram = macd_line - macd_signal` (`NULL`-propagating). -/
def macdHistogram (xs : List ℚ) (i : Nat) : Option ℚ :=
  match macdLine xs i, macdSignal xs i with
  | some a, some b => some (a - b)
  | _, _ => none

/-- Gold `daily_return`
(`COALESCE(SAFE_DIVIDE(close - LAG(close), LAG(close)), 0)`):
`0` on the first row of a partition, `0` when the previous close is `0`
(the `SAFE_DIVIDE` null is coalesced), else the relative change. -/
def goldReturns (cs : List ℚ) : List ℚ :=
  (List.range cs.length).map fun i =>
    if i = 0 then 0
    else
      let prev := cs.getD (i - 1) 0
      if prev = 0 then 0 else (cs.getD i 0 - prev) / prev

/-- `cumulative_return = SUM(daily_return) OVER (PARTITION BY ticker
ORDER BY trade_date)` — running sum up to and including row `i`. -/
def cumRet (cs : List ℚ) (i : Nat) : ℚ := qsum ((goldReturns cs).take (i + 1))

/-- Gold N-day simple moving average with the
`COUNT(*) OVER (... (N-1) PRECEDING ...) = N` guard. -/
def maN (n : Nat) (xs : List ℚ) (i : Nat) : Option ℚ :=
  let w := ascWin (n - 1) xs i
  if w.length = n then some (avgQ w) else none

/-- `ma_20`. -/
def ma20 (cs : List ℚ) (i : Nat) : Option ℚ := maN 20 cs i

/-- `ma_50`. -/
def ma50 (cs : List ℚ) (i : Nat) : Option ℚ := maN 50 cs i

/-- `vma_20` in Gold (guarded 20-day average of `total_volume`). -/
def goldVma20 (vols : List ℚ) (i : Nat) : Option ℚ := maN 20 vols i

/-- `IF(daily_return > 0, daily_return, 0)`. -/
def gainPart (d : ℚ) : ℚ := if 0 < d then d else 0

/-- `IF(daily_return < 0, ABS(daily_return), 0)`. -/
def lossPart (d : ℚ) : ℚ := if d < 0 then |d| else 0

/-- The 14-day average loss appearing in the RSI denominator. -/
def avgLoss14 (drs : List ℚ) (i : Nat) : ℚ := avgQ ((ascWin 13 drs i).map lossPart)

/-- `rsi_14` (`gold_etl.py` lines 139–149): guarded by a full 14-row window;
`100 - 100/(1 + SAFE_DIVIDE(avg_gain, avg_loss))`.  When the average loss is
zero `SAFE_DIVIDE` is `NULL` and the whole expression is `NULL`. -/
def rsi14 (drs : List ℚ) (i : Nat) : Option ℚ :=
  let w := ascWin 13 drs i
  if w.length = 14 then
    (safeDiv (avgQ (w.map gainPart)) (avgQ (w.map lossPart))).map
      (fun rs => 100 - 100 / (1 + rs))
  else none

/-- Sample variance `Σ (x - mean)^2 / (n - 1)` of a window; `STDDEV` is the
square root of this, supplied by the parameter `sq`. -/
def sampleVar (w : List ℚ) : ℚ :=
  qsum (w.map fun x => (x - avgQ w) ^ 2) / ((w.length : ℚ) - 1)

/-- Gold `bb_middle` (guarded 20-day average of close). -/
def goldBbMiddle (cs : List ℚ) (i : Nat) : Option ℚ := maN 20 cs i

/-- Gold `bb_upper = avg + 2 * STDDEV` under the 20-row guard. -/
def goldBbUpper (sq : ℚ → ℚ) (cs : List ℚ) (i : Nat) : Option ℚ :=
  let w := ascWin 19 cs i
  if w.length = 20 then some (avgQ w + 2 * sq (sampleVar w)) else none

/-- Gold `bb_lower = avg - 2 * STDDEV` under the 20-row guard. -/
def goldBbLower (sq : ℚ → ℚ) (cs : List ℚ) (i : Nat) : Option ℚ :=
  let w := ascWin 19 cs i
  if w.length = 20 then some (avgQ w - 2 * sq (sampleVar w)) else none

/-- Gold `bb_width = SAFE_DIVIDE((avg+2σ) - (avg-2σ), avg)` under the
20-row guard; additionally `NULL` when the middle band is zero. -/
def goldBbWidth (sq : ℚ → ℚ) (cs : List ℚ) (i : Nat) : Option ℚ :=
  let w := ascWin 19 cs i
  if w.length = 20 then
    safeDiv ((avgQ w + 2 * sq (sampleVar w)) - (avgQ w - 2 * sq (sampleVar w))) (avgQ w)
  else none

/-- Gold `volume_ratio = SAFE_DIVIDE(total_volume, AVG(total_volume) ...)`
under the 20-row guard. -/
def goldVolumeRatio (vols : List ℚ) (i : Nat) : Option ℚ :=
  let w := ascWin 19 vols i
  if w.length = 20 then safeDiv (vols.getD i 0) (avgQ w) else none

/-- Silver `daily_return`
(`SAFE_DIVIDE(close - COALESCE(LAG(close), close), COALESCE(LAG(close), close))`):
on the first row this is `SAFE_DIVIDE(0, close)` — `0` unless the close is
zero, in which case it is `NULL`. -/
def silverReturns (cs : List ℚ) : List (Option ℚ) :=
  (List.range cs.length).map fun i =>
    let prev := if i = 0 then cs.getD 0 0 else cs.getD (i - 1) 0
    safeDiv (cs.getD i 0 - prev) prev

/-- Silver `bb_middle`: unguarded `AVG(close) OVER (... 19 PRECEDING ...)` —
non-`NULL` on every row. -/
def silverBbMiddle (cs : List ℚ) (i : Nat) : ℚ := avgQ (ascWin 19 cs i)

/-- Silver `bb_std`: unguarded `STDDEV(close) OVER (... 19 PRECEDING ...)`.
Sample standard deviation is `NULL` on a frame of fewer than two rows. -/
def silverBbStd (sq : ℚ → ℚ) (cs : List ℚ) (i : Nat) : Option ℚ :=
  let w := ascWin 19 cs i
  if 2 ≤ w.length then some (sq (sampleVar w)) else none

/-- Silver `bb_upper = bb_middle + 2 * bb_std` (`NULL`-propagating). -/
def silverBbUpper (sq : ℚ → ℚ) (cs : List ℚ) (i : Nat) : Option ℚ :=
  (silverBbStd sq cs i).map fun s => silverBbMiddle cs i + 2 * s

/-- Silver `bb_lower = bb_middle - 2 * bb_std` (`NULL`-propagating). -/
def silverBbLower (sq : ℚ → ℚ) (cs : List ℚ) (i : Nat) : Option ℚ :=
  (silverBbStd sq cs i).map fun s => silverBbMiddle cs i - 2 * s

/-- Silver `bb_width = SAFE_DIVIDE((mid+2σ) - (mid-2σ), mid)`. -/
def silverBbWidth (sq : ℚ → ℚ) (cs : List ℚ) (i : Nat) : Option ℚ :=
  (silverBbStd sq cs i).bind fun s =>
    safeDiv ((silverBbMiddle cs i + 2 * s) - (silverBbMiddle cs i - 2 * s))
      (silverBbMiddle cs i)

/-- Silver `vma_20`: unguarded 20-day average of `total_volume`. -/
def silverVma20 (vols : List ℚ) (i : Nat) : ℚ := avgQ (ascWin 19 vols i)

/-- Silver `volume_ratio = SAFE_DIVIDE(total_volume, vma_20)`. -/
def silverVolumeRatio (vols : List ℚ) (i : Nat) : Option ℚ :=
  safeDiv (vols.getD i 0) (silverVma20 vols i)

/-! ## Table-level data model -/

/-- A Bronze row (`RawBar`).  The SQL `timestamp` is the pair `(day, tod)`;
`DATE(timestamp)` is `day`.  The SQL column `open` is `open_p` here
(`open` is a Lean keyword). -/
structure BronzeBar where
  day : ℤ
  tod : ℤ
  ticker : String
  open_p : ℚ
  high : ℚ
  low : ℚ
  close : ℚ
  volume : ℚ
  ingested_at : ℤ
  deriving Inhabited, DecidableEq, Repr

/-- Lexicographic order on Bronze timestamps. -/
def tsLe (a b : BronzeBar) : Bool := a.day < b.day ∨ (a.day = b.day ∧ a.tod ≤ b.tod)

/-- A daily bar: the shape shared by the `daily` CTE output and the stored
Silver base columns (`trade_date, ticker, open, high, low, close,
total_volume, ingested_at`). -/
structure SilverBar where
  trade_date : ℤ
  ticker : String
  open_p : ℚ
  high : ℚ
  low : ℚ
  close : ℚ
  total_volume : ℚ
  ingested_at : ℤ
  deriving Inhabited, DecidableEq, Repr

/-- Insertion step for sorting daily rows by `trade_date` ascending. -/
def insertByDate (b : SilverBar) : List SilverBar → List SilverBar
  | [] => [b]
  | c :: cs => if b.trade_date ≤ c.trade_date then b :: c :: cs else c :: insertByDate b cs

/-- Sort a list of daily rows by `trade_date` ascending (within one ticker
partition the dates are distinct, so this order is total). -/
def sortByDate (l : List SilverBar) : List SilverBar := l.foldr insertByDate []

/-- The partition of a table belonging to one ticker, in window order
(`PARTITION BY ticker ORDER BY trade_date`). -/
def partOf (t : List SilverBar) (tk : String) : List SilverBar :=
  sortByDate (t.filter fun b => b.ticker = tk)

/-- The 0-based ascending index of the row dated `d` inside its partition:
the number of partition rows with a strictly earlier date. -/
def idxOf (p : List SilverBar) (d : ℤ) : Nat := p.countP fun b => b.trade_date < d

/-- Insertion step for sorting Bronze rows by timestamp ascending. -/
def insertByTs (b : BronzeBar) : List BronzeBar → List BronzeBar
  | [] => [b]
  | c :: cs => if tsLe b c then b :: c :: cs else c :: insertByTs b cs

/-- Sort Bronze rows by `timestamp` ascending. -/
def sortByTs (l : List BronzeBar) : List BronzeBar := l.foldr insertByTs []

/-- Maximum of a list of rationals seeded with the head (the list is
non-empty in every use). -/
def maxD (l : List ℚ) : ℚ := l.foldr max (l.headD 0)

/-- Minimum of a list of rationals seeded with the head. -/
def minD (l : List ℚ) : ℚ := l.foldr min (l.headD 0)

/-- The `daily` CTE of `build_incremental_sql` (`silver_etl.py` 123–136):
group Bronze rows by `(DATE(timestamp), ticker)`; within a group `open` is
the first bar's open by timestamp ascending, `close` the last bar's close,
`high`/`low` the extrema, `total_volume` the sum of volumes;
`ingested_at = CURRENT_TIMESTAMP()` (the run instant `now`). -/
def dailyAgg (now : ℤ) (bronze : List BronzeBar) : List SilverBar :=
  ((bronze.map fun b => (b.day, b.ticker)).dedup).map fun kd =>
    let rows := sortByTs (bronze.filter fun b => b.day = kd.1 ∧ b.ticker = kd.2)
    { trade_date := kd.1
      ticker := kd.2
      open_p := (rows.headD default).open_p
      high := maxD (rows.map (·.high))
      low := minD (rows.map (·.low))
      close := (rows.getLastD default).close
      total_volume := qsum (rows.map (·.volume))
      ingested_at := now }

/-! ## Gold stage (`gold_etl.py`) -/

/-- A materialized Gold row (`run_gold_etl` schema, lines 54–79). -/
structure GoldRow where
  trade_date : ℤ
  ticker : String
  open_p : ℚ
  high : ℚ
  low : ℚ
  close : ℚ
  total_volume : ℚ
  ingested_at : ℤ
  daily_return : ℚ
  cumulative_return : ℚ
  ma_20 : Option ℚ
  ma_50 : Option ℚ
  rsi_14 : Option ℚ
  macd_line : Option ℚ
  macd_signal : Option ℚ
  macd_histogram : Option ℚ
  bb_upper : Option ℚ
  bb_middle : Option ℚ
  bb_lower : Option ℚ
  bb_width : Option ℚ
  vma_20 : Option ℚ
  volume_ratio : Option ℚ
  ema_12 : Option ℚ
  ema_26 : Option ℚ
  deriving Inhabited, DecidableEq, Repr

/-- The Gold source row computed for Silver row `r` from its ticker
partition `p` (the `daily`/`macd_base`/`metrics`/`final` CTE chain of
`run_gold_etl`, lines 98–256). -/
def goldRowOf (sq : ℚ → ℚ) (p : List SilverBar) (r : SilverBar) : GoldRow :=
  let cs := p.map (·.close)
  let vols := p.map (·.total_volume)
  let drs := goldReturns cs
  let i := idxOf p r.trade_date
  { trade_date := r.trade_date
    ticker := r.ticker
    open_p := r.open_p
    high := r.high
    low := r.low
    close := r.close
    total_volume := r.total_volume
    ingested_at := r.ingested_at
    daily_return := drs.getD i 0
    cumulative_return := cumRet cs i
    ma_20 := ma20 cs i
    ma_50 := ma50 cs i
    rsi_14 := rsi14 drs i
    macd_line := macdLine cs i
    macd_signal := macdSignal cs i
    macd_histogram := macdHistogram cs i
    bb_upper := goldBbUpper sq cs i
    bb_middle := goldBbMiddle cs i
    bb_lower := goldBbLower sq cs i
    bb_width := goldBbWidth sq cs i
    vma_20 := goldVma20 vols i
    volume_ratio := goldVolumeRatio vols i
    ema_12 := ema12 cs i
    ema_26 := ema26 cs i }

/-- The full Gold source computation over a Silver table: every window
function is `PARTITION BY ticker ORDER BY trade_date`, so each row is
computed from its own ticker's partition. -/
def goldCompute (sq : ℚ → ℚ) (silver : List SilverBar) : List GoldRow :=
  silver.map fun r => goldRowOf sq (partOf silver r.ticker) r

/-- `(trade_date, ticker)` key of a Gold row. -/
def goldKey (g : GoldRow) : ℤ × String := (g.trade_date, g.ticker)

/-- One run of `run_gold_etl` on Gold state `gold` reading Silver table
`silver` at run date `today`:
`CREATE TABLE IF NOT EXISTS` (a no-op on the state), then
`MERGE` with source `SELECT * FROM final WHERE trade_date >
DATE_SUB(CURRENT_DATE(), INTERVAL 30 DAY)` and a single
`WHEN NOT MATCHED THEN INSERT` branch (no update, no delete). -/
def goldRun (today : ℤ) (sq : ℚ → ℚ) (gold : List GoldRow)
    (silver : List SilverBar) : List GoldRow :=
  let src := (goldCompute sq silver).filter fun g => today - 30 < g.trade_date
  gold ++ src.filter fun s =>
    ¬ gold.any fun g => g.trade_date = s.trade_date ∧ g.ticker = s.ticker

/-- `rebuild_gold.py` `main`: drop the Gold table (state becomes empty),
then `gold_etl.run_gold_etl()`. -/
def rebuildGold (today : ℤ) (sq : ℚ → ℚ) (silver : List SilverBar) : List GoldRow :=
  goldRun today sq [] silver

/-! ## Silver stage (`silver_etl.py`) -/

/-- A materialized Silver row (`ensure_silver_table` schema, lines 46–70). -/
structure SilverRowFull where
  trade_date : ℤ
  ticker : String
  open_p : ℚ
  high : ℚ
  low : ℚ
  close : ℚ
  total_volume : ℚ
  ingested_at : ℤ
  daily_return : Option ℚ
  ema_12 : Option ℚ
  ema_26 : Option ℚ
  macd_line : Option ℚ
  macd_signal : Option ℚ
  macd_histogram : Option ℚ
  bb_middle : Option ℚ
  bb_upper : Option ℚ
  bb_lower : Option ℚ
  bb_width : Option ℚ
  vma_20 : Option ℚ
  volume_ratio : Option ℚ
  deriving Inhabited, DecidableEq, Repr

/-- The Silver indicator row computed for daily row `r` from its ticker
partition `p` (the `returns`/`with_arrays`/`indicators`/`macd_calc`/
`macd_signal_calc`/`final_indicators` CTE chain of `build_incremental_sql`,
lines 137–216). -/
def silverRowOf (sq : ℚ → ℚ) (p : List SilverBar) (r : SilverBar) : SilverRowFull :=
  let cs := p.map (·.close)
  let vols := p.map (·.total_volume)
  let i := idxOf p r.trade_date
  { trade_date := r.trade_date
    ticker := r.ticker
    open_p := r.open_p
    high := r.high
    low := r.low
    close := r.close
    total_volume := r.total_volume
    ingested_at := r.ingested_at
    daily_return := (silverReturns cs).getD i none
    ema_12 := ema12 cs i
    ema_26 := ema26 cs i
    macd_line := macdLine cs i
    macd_signal := macdSignal cs i
    macd_histogram := macdHistogram cs i
    bb_middle := some (silverBbMiddle cs i)
    bb_upper := silverBbUpper sq cs i
    bb_lower := silverBbLower sq cs i
    bb_width := silverBbWidth sq cs i
    vma_20 := some (silverVma20 vols i)
    volume_ratio := silverVolumeRatio vols i }

/-- The Silver indicator computation over a daily table (all windows
`PARTITION BY ticker ORDER BY trade_date`). -/
def silverCompute (sq : ℚ → ℚ) (daily : List SilverBar) : List SilverRowFull :=
  daily.map fun r => silverRowOf sq (partOf daily r.ticker) r

/-- `get_last_trade_date` (`silver_etl.py` lines 77–82): despite its
docstring ("Return last trade_date from Silver table; None if empty or
missing"), it never reads the Silver table — it always returns
`today - 30` days and never `None`. -/
def getLastTradeDate (today : ℤ) : ℤ := today - 30

/-- `build_incremental_sql last_trade_date` as a table transformation:
Bronze rows are pre-filtered to
`DATE(timestamp) >= DATE_SUB(last, INTERVAL 1 DAY)` (no filter when
`last` is absent), aggregated to daily rows, indicators are layered over
that filtered table, and the `incremental` CTE keeps only rows with
`trade_date > last`. -/
def silverSource (sq : ℚ → ℚ) (now : ℤ) (bronze : List BronzeBar)
    (last : Option ℤ) : List SilverRowFull :=
  let filtered := match last with
    | some l => bronze.filter fun b => l - 1 ≤ b.day
    | none => bronze
  let rows := silverCompute sq (dailyAgg now filtered)
  match last with
  | some l => rows.filter fun r => l < r.trade_date
  | none => rows

/-- `(trade_date, ticker)` key of a Silver row. -/
def silverKey (r : SilverRowFull) : ℤ × String := (r.trade_date, r.ticker)

/-- `merge_into_silver` (lines 226–263): `MERGE ... ON (trade_date, ticker)`,
`WHEN MATCHED THEN UPDATE` every non-key column (with equal keys this
replaces the row by the source row), `WHEN NOT MATCHED THEN INSERT`. -/
def silverMerge (target src : List SilverRowFull) : List SilverRowFull :=
  (target.map fun t =>
    match src.find? (fun s => s.trade_date = t.trade_date ∧ s.ticker = t.ticker) with
    | some s => s
    | none => t) ++
  src.filter fun s =>
    ¬ target.any fun t => t.trade_date = s.trade_date ∧ t.ticker = s.ticker

/-- `silver_etl.main`: read the boundary from `get_last_trade_date`, list
the Bronze dates beyond it (`get_dates_to_process`), and if any exist run
the incremental merge; otherwise leave the table unchanged. -/
def silverRun (today now : ℤ) (sq : ℚ → ℚ) (bronze : List BronzeBar)
    (silver : List SilverRowFull) : List SilverRowFull :=
  let last := getLastTradeDate today
  if bronze.any fun b => last < b.day then
    silverMerge silver (silverSource sq now bronze (some last))
  else silver

/-! ## Bronze ingestion (`bronze_etl.py`) -/

/-- `(timestamp, ticker)` key of a Bronze row. -/
def bronzeKey (b : BronzeBar) : ℤ × ℤ × String := (b.day, b.tod, b.ticker)

/-- `deduplicate_against_bq` (lines 113–152): query the existing rows with
`timestamp >= min(batch timestamps)` for the batch's tickers, and anti-join
the batch against their `(timestamp, ticker)` keys.  (The ticker `IN`
filter is modelled as part of the key membership test.) -/
def deduplicateAgainstBq (store batch : List BronzeBar) : List BronzeBar :=
  if batch.isEmpty then batch
  else
    let minTs := batch.foldr (fun b m => if tsLe b m then b else m) (batch.headD default)
    let existing := (store.filter fun r => tsLe minTs r).map bronzeKey
    batch.filter fun b => ¬ existing.contains (bronzeKey b)

/-- One successful ingestion run (`bronze_etl.main` minus the fetch):
deduplicate the fetched batch against the store, then `WRITE_APPEND`
(`load_to_bigquery`) — existing rows are never updated or deleted. -/
def ingestRun (store batch : List BronzeBar) : List BronzeBar :=
  store ++ deduplicateAgainstBq store batch

/-! ## Spec-side definitions and helper lemmas -/

/-- The EMA formula of the specification, stated in the spec's own words:
the normalized weighted average `Σ close[offset]·d^offset / Σ d^offset`
over the **last** `n` closes of the ticker up to and including row `i`,
with `offset 0` the **most recent** close; `NULL` whenever fewer than `n`
values are available.  (Spec-side definition, for comparison with the
source-side `emaArr`.) -/
def specTrailingEma (n : Nat) (d : ℚ) (xs : List ℚ) (i : Nat) : Option ℚ :=
  let w := (ascWin (n - 1) xs i).reverse
  if w.length = n then some (wdot d 1 w / geomSum d n) else none

/-- Arbitrary instantiation of the square-root parameter used in concrete
witnesses (no theorem depends on its values). -/
def sqZero : ℚ → ℚ := fun _ => 0

lemma ascWin_length {xs : List ℚ} {i : Nat} (k : Nat) (h : i < xs.length) :
    (ascWin k xs i).length = min (i + 1) (k + 1) := by
  simp only [ascWin, List.length_drop, List.length_take]
  omega

lemma descFrame_length {α : Type} (k : Nat) (xs : List α) (i : Nat) :
    (descFrame k xs i).length = min (k + 1) (xs.length - i) := by
  simp only [descFrame, List.length_reverse, List.length_take, List.length_drop]

lemma mem_of_mem_ascWin {xs : List ℚ} {i k : Nat} {x : ℚ}
    (h : x ∈ ascWin k xs i) : x ∈ xs := by
  simp only [ascWin] at h
  exact List.mem_of_mem_take (List.mem_of_mem_drop h)

lemma qsum_pos {w : List ℚ} (hne : w ≠ []) (hpos : ∀ x ∈ w, 0 < x) :
    0 < qsum w := by
  induction w with
  | nil => exact absurd rfl hne
  | cons a l ih =>
    have ha : 0 < a := hpos a (by simp)
    rcases eq_or_ne l [] with h | h
    · simpa [qsum, h] using ha
    · have := ih h (fun x hx => hpos x (by simp [hx]))
      simp only [qsum, List.foldr_cons] at *
      linarith

lemma avgQ_pos {w : List ℚ} (hne : w ≠ []) (hpos : ∀ x ∈ w, 0 < x) :
    0 < avgQ w := by
  have h1 : 0 < qsum w := qsum_pos hne hpos
  have h2 : 0 < (w.length : ℚ) := by
    have : 0 < w.length := List.length_pos.mpr hne
    exact_mod_cast this
  exact div_pos h1 h2

lemma qsum_map_zero {α : Type} {l : List α} {f : α → ℚ}
    (h : ∀ x ∈ l, f x = 0) : qsum (l.map f) = 0 := by
  induction l with
  | nil => rfl
  | cons a l ih =>
    simp only [qsum, List.map_cons, List.foldr_cons]
    rw [h a (by simp)]
    have := ih (fun x hx => h x (by simp [hx]))
    simp only [qsum] at this
    rw [this]; ring

/-! ## Concrete data for counterexamples and witnesses -/

/-- 26 identical closes of 100 (dates ascending). -/
def csFlat : List ℚ := List.replicate 26 100

/-- Same as `csFlat` except the **last** (most future) close is 200. -/
def csBump : List ℚ := List.replicate 25 100 ++ [200]

/-- 26 strictly increasing positive closes 1, 2, …, 26. -/
def csInc : List ℚ := (List.range 26).map fun k => (k : ℚ) + 1

/-- A Bronze bar dated 50 days before the run date 20300. -/
def oldBar : BronzeBar :=
  { day := 20250, tod := 0, ticker := "AAPL", open_p := 1, high := 1, low := 1,
    close := 1, volume := 1, ingested_at := 0 }

/-- A Silver row dated 40 days before the run date 20300. -/
def silverOld : List SilverBar :=
  [{ trade_date := 20260, ticker := "AAPL", open_p := 1, high := 1, low := 1,
     close := 1, total_volume := 1, ingested_at := 0 }]

/-- Silver rows for ticker AAPL on two consecutive recent dates. -/
def s294 : SilverBar :=
  { trade_date := 20294, ticker := "AAPL", open_p := 1, high := 1, low := 1,
    close := 1, total_volume := 1, ingested_at := 0 }

def s295 : SilverBar :=
  { trade_date := 20295, ticker := "AAPL", open_p := 2, high := 2, low := 2,
    close := 2, total_volume := 2, ingested_at := 0 }

/-- A Gold state already holding the row `(20295, AAPL)` (its watermark). -/
def g295 : GoldRow :=
  { trade_date := 20295, ticker := "AAPL", open_p := 2, high := 2, low := 2,
    close := 2, total_volume := 2, ingested_at := 0, daily_return := 0,
    cumulative_return := 0, ma_20 := none, ma_50 := none, rsi_14 := none,
    macd_line := none, macd_signal := none, macd_histogram := none,
    bb_upper := none, bb_middle := none, bb_lower := none, bb_width := none,
    vma_20 := none, volume_ratio := none, ema_12 := none, ema_26 := none }

/-- Maximum materialized `trade_date` of a Gold state (its watermark). -/
def goldMaxDate (gold : List GoldRow) : Option ℤ := (gold.map (·.trade_date)).max?

/-! ## Claim theorems

Batteries marks `Rat.add`, `Rat.mul`, `Rat.inv` and `Rat.sub` irreducible,
which blocks kernel evaluation of concrete rational arithmetic in `decide`;
the section below restores the default reducibility locally so concrete
inputs can be evaluated. -/

section ConcreteEvaluation

attribute [local semireducible] Rat.add Rat.mul Rat.inv Rat.sub

set_option maxRecDepth 100000

/-- C1: the claim says the `ema_12`/`ema_26`/`macd` values at `(D, T)`
depend only on rows of `T` with `trade_date ≤ D`.  The code violates this:
because the EMA arrays are framed `ORDER BY trade_date DESC ROWS BETWEEN 25
PRECEDING AND CURRENT ROW`, the "preceding" rows are the rows with **later**
dates.  On a 26-day history whose first 25 closes agree, `ema_26` at the
**first** date is non-null and changes when only the last (future) close
changes. -/
theorem gold_ema_uses_future_rows :
    csFlat.take 25 = csBump.take 25 ∧
    (ema26 csFlat 0).isSome = true ∧
    ema26 csFlat 0 ≠ ema26 csBump 0 := by
  refine ⟨by decide, by decide, by decide⟩

/-- C2: the claim says the Silver incremental boundary equals the maximum
`trade_date` already materialized in Silver, with full-history processing on
first run.  In the code `get_last_trade_date` ignores the Silver table and
always returns `today - 30`; in particular a first run over Bronze history
older than 30 days processes nothing at all (here: one Bronze bar dated 50
days back is silently skipped and the empty Silver table stays empty). -/
theorem silver_boundary_ignores_watermark :
    getLastTradeDate 20300 = 20270 ∧
    (getLastTradeDate 20300 < oldBar.day) = False ∧
    silverRun 20300 0 sqZero [oldBar] [] = [] := by
  refine ⟨rfl, by decide, by decide⟩

/-- C3: the claim says `ema_N` on a fully populated trailing window equals
the normalized decay-weighted average of the **last** `N` closes (offset 0 =
most recent), null when fewer than `N` values are available.  On 26
increasing closes the spec formula is non-null exactly at the 26th row,
while the code (`ema26`) is null there and non-null at the **first** row —
its window is the current close plus the next 25 future closes. -/
theorem ema_weighting_diverges_from_trailing_spec :
    (specTrailingEma 26 (25 / 27) csInc 25).isSome = true ∧
    ema26 csInc 25 = none ∧
    specTrailingEma 26 (25 / 27) csInc 0 = none ∧
    (ema26 csInc 0).isSome = true := by
  refine ⟨by decide, by decide, by decide, by decide⟩

/-- C4: the claim says a full Gold rebuild reprocesses the entire Silver
history and reproduces the accumulated incremental result.  The rebuild
(`rebuild_gold.py`: drop, then `run_gold_etl`) inherits the Gold source
filter `trade_date > CURRENT_DATE() - 30 DAY`, so Silver rows older than 30
days are never reprocessed: rebuilding over a Silver table whose only row is
40 days old yields an empty Gold table, while the accumulated incremental
state still holds that row. -/
theorem gold_rebuild_drops_old_history :
    rebuildGold 20300 sqZero silverOld = [] ∧
    silverOld ≠ [] ∧
    goldRun 20270 sqZero [] silverOld ≠ [] := by
  refine ⟨by decide, by decide, by decide⟩

/-- C5 counterexample: the claim says every inserted Gold row has
`trade_date` strictly greater than the Gold watermark at the start of the
run.  With Gold holding `(20295, AAPL)` (watermark 20295) and Silver
holding the pair `(20294, AAPL)` as well, the run inserts the row dated
20294 — at most the `(trade_date, ticker)` pair must be new, not the date. -/
theorem gold_inserts_below_watermark :
    goldMaxDate [g295] = some 20295 ∧
    [g295].all (fun g => g.trade_date ≠ 20294) = true ∧
    (goldRun 20300 sqZero [g295] [s294, s295]).any
      (fun r => r.trade_date = 20294 ∧ r.ticker = "AAPL") = true := by
  refine ⟨by decide, by decide, by decide⟩

end ConcreteEvaluation

/-- C5 amended: a Gold run never updates or deletes an existing Gold row
(the prior state is a prefix of the new state), and every inserted row has
`trade_date` within 30 days of the run date and a `(trade_date, ticker)`
pair not already present in Gold. -/
theorem gold_merge_insert_only (today : ℤ) (sq : ℚ → ℚ) (gold : List GoldRow)
    (silver : List SilverBar) :
    (goldRun today sq gold silver).take gold.length = gold ∧
    ∀ r ∈ (goldRun today sq gold silver).drop gold.length,
      today - 30 < r.trade_date ∧
      gold.any (fun g => g.trade_date = r.trade_date ∧ g.ticker = r.ticker) = false := by
  constructor
  · simp only [goldRun, List.take_left]
  · intro r hr
    simp only [goldRun, List.drop_left] at hr
    rw [List.mem_filter] at hr
    obtain ⟨hr1, hr2⟩ := hr
    rw [List.mem_filter] at hr1
    refine ⟨by simpa using hr1.2, ?_⟩
    simpa using hr2

section ConcreteEvaluation2

attribute [local semireducible] Rat.add Rat.mul Rat.inv Rat.sub

set_option maxRecDepth 100000

/-- The row the Gold run of `gold_inserts_below_watermark` inserts. -/
def insertedRow294 : GoldRow := goldRowOf sqZero (partOf [s294, s295] "AAPL") s294

/-- Witness for C5 amended at a concrete input. -/
theorem gold_merge_insert_only_witness :
    (goldRun 20300 sqZero [g295] [s294, s295]).take 1 = [g295] ∧
    (20300 - 30 < insertedRow294.trade_date ∧
      [g295].any (fun g => g.trade_date = insertedRow294.trade_date ∧
        g.ticker = insertedRow294.ticker) = false) :=
  ⟨(gold_merge_insert_only 20300 sqZero [g295] [s294, s295]).1,
   (gold_merge_insert_only 20300 sqZero [g295] [s294, s295]).2 insertedRow294 (by decide)⟩

/-- C6 counterexample: the claim says `ema_26` is null before a ticker's
26th observation and non-null from the 26th onward.  On a 26-observation
history the code's `ema_26` is null at the 26th row and non-null at the
first — the gate looks at later rows, not earlier ones. -/
theorem window_gating_violated_for_ema26 :
    csInc.length = 26 ∧ ema26 csInc 25 = none ∧ (ema26 csInc 0).isSome = true := by
  refine ⟨by decide, by decide, by decide⟩

end ConcreteEvaluation2

lemma maN_isSome {xs : List ℚ} {i : Nat} (n : Nat) (hn : 1 ≤ n) (h : i < xs.length) :
    (maN n xs i).isSome ↔ n - 1 ≤ i := by
  simp only [maN]
  rw [ascWin_length (n - 1) h]
  split <;> rename_i hc
  · simpa using by omega
  · simp only [Option.isSome_none, Bool.false_eq_true, false_iff]
    omega

lemma emaArr_isSome {xs : List ℚ} {i : Nat} (n : Nat) (d : ℚ) (hn : 1 ≤ n) :
    (emaArr n d xs i).isSome ↔ i + n ≤ xs.length := by
  simp only [emaArr]
  rw [descFrame_length (n - 1) xs i]
  split <;> rename_i hc
  · simpa using by omega
  · simp only [Option.isSome_none, Bool.false_eq_true, false_iff]
    omega

lemma isSome_omap {α β : Type} {f : α → β} {o : Option α} :
    (o.map f).isSome = o.isSome := by cases o <;> rfl

lemma safeDiv_isSome {a b : ℚ} : (safeDiv a b).isSome ↔ b ≠ 0 := by
  simp only [safeDiv]
  split <;> simp_all

lemma ascWin_ne_nil {xs : List ℚ} {i k : Nat} (h : i < xs.length) :
    ascWin k xs i ≠ [] := by
  intro hnil
  have := ascWin_length k h
  rw [hnil] at this
  simp at this
  omega

lemma ascWin_avg_pos {xs : List ℚ} {i k : Nat} (h : i < xs.length)
    (hpos : ∀ c ∈ xs, 0 < c) : 0 < avgQ (ascWin k xs i) :=
  avgQ_pos (ascWin_ne_nil h) (fun x hx => hpos x (mem_of_mem_ascWin hx))

/-- The amended window-gating property of claim C6: in Gold, the
`COUNT(*)`-guarded indicators (`ma_20`, `ma_50`, Bollinger fields,
`vma_20`) are null before the ticker's Nth observation and non-null from
the Nth onward; `rsi_14` additionally requires a nonzero 14-day average
loss; in Silver the unguarded Bollinger fields are non-null from the
second observation (sample `STDDEV` needs two rows); and the EMA fields
are gated **forward**: non-null exactly when the input holds at least
`N - 1` rows of the ticker after row `i`. -/
def windowGatingAmended (sq : ℚ → ℚ) (cs vols drs : List ℚ) (i : Nat) : Prop :=
  ((ma20 cs i).isSome ↔ 19 ≤ i) ∧
  ((ma50 cs i).isSome ↔ 49 ≤ i) ∧
  ((goldBbMiddle cs i).isSome ↔ 19 ≤ i) ∧
  ((goldBbUpper sq cs i).isSome ↔ 19 ≤ i) ∧
  ((goldBbLower sq cs i).isSome ↔ 19 ≤ i) ∧
  ((goldBbWidth sq cs i).isSome ↔ 19 ≤ i) ∧
  ((goldVma20 vols i).isSome ↔ 19 ≤ i) ∧
  ((rsi14 drs i).isSome ↔ (13 ≤ i ∧ avgLoss14 drs i ≠ 0)) ∧
  ((silverBbUpper sq cs i).isSome ↔ 1 ≤ i) ∧
  ((silverBbLower sq cs i).isSome ↔ 1 ≤ i) ∧
  ((silverBbWidth sq cs i).isSome ↔ 1 ≤ i) ∧
  ((ema12 cs i).isSome ↔ i + 12 ≤ cs.length) ∧
  ((ema26 cs i).isSome ↔ i + 26 ≤ cs.length)

/-- C6 amended and proved: window-gating as the code actually implements
it, for every row index `i` of a ticker's history with positive closes. -/
theorem window_gating_amended (sq : ℚ → ℚ) (cs vols drs : List ℚ) (i : Nat)
    (hc : i < cs.length) (hv : i < vols.length) (hd : i < drs.length)
    (hpos : ∀ c ∈ cs, 0 < c) :
    windowGatingAmended sq cs vols drs i := by
  have hmid : 0 < avgQ (ascWin 19 cs i) := ascWin_avg_pos hc hpos
  refine ⟨maN_isSome 20 (by omega) hc, maN_isSome 50 (by omega) hc,
    maN_isSome 20 (by omega) hc, ?_, ?_, ?_, maN_isSome 20 (by omega) hv,
    ?_, ?_, ?_, ?_, emaArr_isSome 12 _ (by omega), emaArr_isSome 26 _ (by omega)⟩
  · simp only [goldBbUpper]
    rw [ascWin_length 19 hc]
    split <;> rename_i h1
    · simpa using by omega
    · simp only [Option.isSome_none, Bool.false_eq_true, false_iff]; omega
  · simp only [goldBbLower]
    rw [ascWin_length 19 hc]
    split <;> rename_i h1
    · simpa using by omega
    · simp only [Option.isSome_none, Bool.false_eq_true, false_iff]; omega
  · simp only [goldBbWidth]
    rw [ascWin_length 19 hc]
    split <;> rename_i h1
    · rw [safeDiv_isSome]
      constructor
      · intro _; omega
      · intro _; exact ne_of_gt hmid
    · simp only [Option.isSome_none, Bool.false_eq_true, false_iff]; omega
  · simp only [rsi14]
    rw [ascWin_length 13 hd]
    split <;> rename_i h1
    · rw [isSome_omap]
      rw [safeDiv_isSome]
      unfold avgLoss14
      constructor
      · intro hne; exact ⟨by omega, hne⟩
      · intro hne; exact hne.2
    · simp only [Option.isSome_none, Bool.false_eq_true, false_iff]
      intro hcon; omega
  · simp only [silverBbUpper, isSome_omap, silverBbStd]
    rw [ascWin_length 19 hc]
    split <;> rename_i h1
    · simpa using by omega
    · simp only [Option.isSome_none, Bool.false_eq_true, false_iff]; omega
  · simp only [silverBbLower, isSome_omap, silverBbStd]
    rw [ascWin_length 19 hc]
    split <;> rename_i h1
    · simpa using by omega
    · simp only [Option.isSome_none, Bool.false_eq_true, false_iff]; omega
  · simp only [silverBbWidth, silverBbStd]
    rw [ascWin_length 19 hc]
    split <;> rename_i h1
    · simp only [Option.some_bind]
      rw [safeDiv_isSome]
      constructor
      · intro _; omega
      · intro _; exact ne_of_gt hmid
    · simp only [Option.none_bind, Option.isSome_none, Bool.false_eq_true, false_iff]
      omega

section ConcreteEvaluation3

attribute [local semireducible] Rat.add Rat.mul Rat.inv Rat.sub

set_option maxRecDepth 100000

/-- Witness for C6 amended at a concrete input (26 positive closes,
volumes and returns; the 26th row). -/
theorem window_gating_amended_witness :
    (25 < csInc.length ∧ (∀ c ∈ csInc, 0 < c)) ∧
      windowGatingAmended sqZero csInc csInc csInc 25 :=
  ⟨⟨by decide, by decide⟩,
   window_gating_amended sqZero csInc csInc csInc 25 (by decide) (by decide)
     (by decide) (by decide)⟩

end ConcreteEvaluation3

/-- C10: the `rsi_14` expression of the Gold stage on a fully populated
14-row window with no negative daily return: the 14-day average loss is
zero, `SAFE_DIVIDE(avg_gain, 0)` is `NULL`, and the whole expression is
`NULL` — not 100, not 0, and no arithmetic error. -/
theorem rsi_null_on_zero_loss (drs : List ℚ) (i : Nat)
    (hlen : (ascWin 13 drs i).length = 14)
    (hpos : ∀ d ∈ ascWin 13 drs i, 0 ≤ d) :
    rsi14 drs i = none := by
  have hz : avgQ ((ascWin 13 drs i).map lossPart) = 0 := by
    have hq : qsum ((ascWin 13 drs i).map lossPart) = 0 := by
      refine qsum_map_zero fun x hx => ?_
      have : ¬ x < 0 := not_lt.mpr (hpos x hx)
      simp [lossPart, this]
    simp [avgQ, hq]
  simp only [rsi14, hlen, if_pos]
  rw [hz]
  simp [safeDiv]

section ConcreteEvaluation4

attribute [local semireducible] Rat.add Rat.mul Rat.inv Rat.sub

set_option maxRecDepth 100000

/-- Fourteen non-negative daily returns. -/
def drsFlat : List ℚ := List.replicate 14 (1 / 10)

/-- Witness for C10 at a concrete input. -/
theorem rsi_null_on_zero_loss_witness :
    (ascWin 13 drsFlat 13).length = 14 ∧ rsi14 drsFlat 13 = none :=
  ⟨by decide, rsi_null_on_zero_loss drsFlat 13 (by decide) (by decide)⟩

end ConcreteEvaluation4

lemma filter_compute_eq {γ : Type} (G : List SilverBar → SilverBar → γ)
    (tick : γ → String) (hG : ∀ p r, tick (G p r) = r.ticker) (t : String)
    (zs : List SilverBar) :
    (zs.map fun r => G (partOf zs r.ticker) r).filter (fun g => tick g = t)
      = (zs.filter fun b => b.ticker = t).map fun r => G (partOf zs t) r := by
  rw [List.filter_map]
  have hcomp : ((fun g => decide (tick g = t)) ∘ fun r => G (partOf zs r.ticker) r)
      = fun r : SilverBar => decide (r.ticker = t) := by
    funext r
    simp [hG]
  rw [hcomp]
  refine List.map_congr_left fun a ha => ?_
  have hat : a.ticker = t := by simpa using (List.mem_filter.mp ha).2
  rw [hat]

/-- C9: partition isolation.  All indicator windows are
`PARTITION BY ticker`, so over any two Silver (resp. daily) tables that
agree on ticker `t`'s rows, the computed Gold (resp. Silver) indicator rows
for `t` are identical; in particular changing another ticker's history
never changes `t`'s computed values. -/
theorem partition_isolation (sq : ℚ → ℚ) (t : String) (xs ys : List SilverBar)
    (h : xs.filter (fun b => b.ticker = t) = ys.filter (fun b => b.ticker = t)) :
    (goldCompute sq xs).filter (fun g => g.ticker = t)
        = (goldCompute sq ys).filter (fun g => g.ticker = t) ∧
    (silverCompute sq xs).filter (fun r => r.ticker = t)
        = (silverCompute sq ys).filter (fun r => r.ticker = t) := by
  have hpart : partOf xs t = partOf ys t := by
    unfold partOf
    rw [h]
  constructor
  · unfold goldCompute
    rw [filter_compute_eq (goldRowOf sq) GoldRow.ticker (fun _ _ => rfl) t xs,
      filter_compute_eq (goldRowOf sq) GoldRow.ticker (fun _ _ => rfl) t ys,
      h, hpart]
  · unfold silverCompute
    rw [filter_compute_eq (silverRowOf sq) SilverRowFull.ticker (fun _ _ => rfl) t xs,
      filter_compute_eq (silverRowOf sq) SilverRowFull.ticker (fun _ _ => rfl) t ys,
      h, hpart]

section ConcreteEvaluation5

attribute [local semireducible] Rat.add Rat.mul Rat.inv Rat.sub

set_option maxRecDepth 100000

/-- A daily bar of a second ticker. -/
def bNflx : SilverBar :=
  { trade_date := 20294, ticker := "NFLX", open_p := 3, high := 3, low := 3,
    close := 3, total_volume := 3, ingested_at := 0 }

/-- Witness for C9: the tables `[s294, bNflx]` and `[bNflx]` agree on
NFLX's rows, so the computed NFLX indicator rows agree. -/
theorem partition_isolation_witness :
    (goldCompute sqZero [s294, bNflx]).filter (fun g => g.ticker = "NFLX")
        = (goldCompute sqZero [bNflx]).filter (fun g => g.ticker = "NFLX") ∧
    (silverCompute sqZero [s294, bNflx]).filter (fun r => r.ticker = "NFLX")
        = (silverCompute sqZero [bNflx]).filter (fun r => r.ticker = "NFLX") :=
  partition_isolation sqZero "NFLX" [s294, bNflx] [bNflx] (by decide)

end ConcreteEvaluation5

lemma tsLe_refl (a : BronzeBar) : tsLe a a = true := by simp [tsLe]

lemma tsLe_trans {a b c : BronzeBar} (h1 : tsLe a b = true)
    (h2 : tsLe b c = true) : tsLe a c = true := by
  simp only [tsLe, decide_eq_true_eq] at *
  omega

lemma tsLe_of_not {a b : BronzeBar} (h : ¬ tsLe a b = true) : tsLe b a = true := by
  simp only [tsLe, decide_eq_true_eq] at *
  omega

/-- The fold computing `df["timestamp"].min()` is a lower bound of the
batch (and of its seed). -/
lemma foldr_min_le (l : List BronzeBar) (seed : BronzeBar) :
    (∀ x ∈ l, tsLe (l.foldr (fun b m => if tsLe b m then b else m) seed) x = true) ∧
    tsLe (l.foldr (fun b m => if tsLe b m then b else m) seed) seed = true := by
  induction l with
  | nil => exact ⟨fun x hx => absurd hx (by simp), tsLe_refl seed⟩
  | cons b l ih =>
    simp only [List.foldr_cons]
    by_cases htb : tsLe b (l.foldr (fun b m => if tsLe b m then b else m) seed) = true
    · rw [if_pos htb]
      refine ⟨fun x hx => ?_, tsLe_trans htb ih.2⟩
      rcases List.mem_cons.mp hx with h | h
      · rw [h]; exact tsLe_refl b
      · exact tsLe_trans htb (ih.1 x h)
    · rw [if_neg htb]
      refine ⟨fun x hx => ?_, ih.2⟩
      rcases List.mem_cons.mp hx with h | h
      · rw [h]; exact tsLe_of_not htb
      · exact ih.1 x h

/-- `tsLe` only reads the timestamp components, which `bronzeKey` fixes. -/
lemma tsLe_congr_key {m r b : BronzeBar} (h : bronzeKey r = bronzeKey b) :
    tsLe m r = tsLe m b := by
  simp only [bronzeKey, Prod.mk.injEq] at h
  simp [tsLe, h.1, h.2.1]

/-- C8: an ingestion run deduplicates against the store before appending:
if the store and the fetched batch each have unique `(timestamp, ticker)`
keys, the keys are unique after the run, and the prior store content is
preserved unchanged (append-only, never overwritten). -/
theorem bronze_no_duplication (store batch : List BronzeBar)
    (hs : (store.map bronzeKey).Nodup) (hb : (batch.map bronzeKey).Nodup) :
    ((ingestRun store batch).map bronzeKey).Nodup ∧
    (ingestRun store batch).take store.length = store := by
  refine ⟨?_, by simp only [ingestRun, List.take_left]⟩
  rw [ingestRun, List.map_append, List.nodup_append]
  by_cases hbe : batch.isEmpty
  · rw [List.isEmpty_iff.mp hbe]
    simp only [deduplicateAgainstBq, List.isEmpty_nil, if_pos]
    exact ⟨hs, by simp, by simp⟩
  · have hded : deduplicateAgainstBq store batch
        = batch.filter (fun b => ¬ ((store.filter fun r =>
            tsLe (batch.foldr (fun b m => if tsLe b m then b else m)
              (batch.headD default)) r).map bronzeKey).contains (bronzeKey b)) := by
      rw [deduplicateAgainstBq, if_neg (by simpa using hbe)]
    rw [hded]
    refine ⟨hs, hb.sublist (List.Sublist.map bronzeKey (List.filter_sublist batch)), ?_⟩
    intro a ha hA
    obtain ⟨r, hr, hkr⟩ := List.mem_map.mp ha
    obtain ⟨b, hbmem, hkb⟩ := List.mem_map.mp hA
    have hbf := List.mem_filter.mp hbmem
    have hkey : bronzeKey r = bronzeKey b := by rw [hkr, hkb]
    have hmin : tsLe (batch.foldr (fun b m => if tsLe b m then b else m)
        (batch.headD default)) b = true :=
      (foldr_min_le batch (batch.headD default)).1 b hbf.1
    have hminr : tsLe (batch.foldr (fun b m => if tsLe b m then b else m)
        (batch.headD default)) r = true := by
      rw [tsLe_congr_key hkey]
      exact hmin
    have hrmem : bronzeKey r ∈ (store.filter fun x =>
        tsLe (batch.foldr (fun b m => if tsLe b m then b else m)
          (batch.headD default)) x).map bronzeKey :=
      List.mem_map.mpr ⟨r, List.mem_filter.mpr ⟨hr, by simpa using hminr⟩, rfl⟩
    have := hbf.2
    simp only [decide_eq_true_eq] at this
    rw [hkey] at hrmem
    exact this (by simpa [List.elem_eq_mem] using hrmem)

/-- Witness for C8 at a concrete input: a store of one bar, a batch with
one overlapping and one new bar. -/
theorem bronze_no_duplication_witness :
    ((ingestRun [oldBar] [oldBar,
        { oldBar with tod := 1 }]).map bronzeKey).Nodup ∧
    (ingestRun [oldBar] [oldBar, { oldBar with tod := 1 }]).take 1 = [oldBar] :=
  bronze_no_duplication [oldBar] [oldBar, { oldBar with tod := 1 }]
    (by decide) (by decide)

/-- Re-running the Gold merge with no new Silver data (and a run date not
earlier than the first) inserts nothing: the second run is the identity. -/
lemma goldRun_idem (today today' : ℤ) (sq : ℚ → ℚ) (gold : List GoldRow)
    (silver : List SilverBar) (h : today ≤ today') :
    goldRun today' sq (goldRun today sq gold silver) silver
      = goldRun today sq gold silver := by
  conv_lhs => rw [goldRun]
  have hnil : ((goldCompute sq silver).filter fun g => today' - 30 < g.trade_date).filter
      (fun s => ¬ (goldRun today sq gold silver).any
        fun g => g.trade_date = s.trade_date ∧ g.ticker = s.ticker) = [] := by
    rw [List.filter_eq_nil_iff]
    intro s hs
    obtain ⟨hsc, hsd⟩ := List.mem_filter.mp hs
    simp only [decide_eq_true_eq] at hsd
    have hsrc1 : s ∈ (goldCompute sq silver).filter
        fun g => today - 30 < g.trade_date :=
      List.mem_filter.mpr ⟨hsc, by simp only [decide_eq_true_eq]; omega⟩
    have hany : (goldRun today sq gold silver).any
        (fun g => g.trade_date = s.trade_date ∧ g.ticker = s.ticker) = true := by
      by_cases hg : gold.any
          (fun g => g.trade_date = s.trade_date ∧ g.ticker = s.ticker) = true
      · obtain ⟨g, hgm, hgp⟩ := List.any_eq_true.mp hg
        exact List.any_eq_true.mpr
          ⟨g, List.mem_append_left _ hgm, hgp⟩
      · refine List.any_eq_true.mpr ⟨s, ?_, by simp⟩
        rw [goldRun]
        exact List.mem_append_right _
          (List.mem_filter.mpr ⟨hsrc1, by simp only [decide_eq_true_eq]; exact hg⟩)
    simp only [decide_eq_true_eq, not_not]
    exact hany
  rw [hnil, List.append_nil]

lemma silverKey_silverRowOf (sq : ℚ → ℚ) (p : List SilverBar) (r : SilverBar) :
    silverKey (silverRowOf sq p r) = (r.trade_date, r.ticker) := rfl

/-- The `(trade_date, ticker)` keys produced by `build_incremental_sql`
with boundary `L` are exactly the Bronze `(day, ticker)` pairs with
`day > L`. -/
lemma mem_keys_silverSource {sq : ℚ → ℚ} {now : ℤ} {b : List BronzeBar}
    {L d : ℤ} {tk : String} :
    (d, tk) ∈ (silverSource sq now b (some L)).map silverKey
      ↔ (∃ x ∈ b, x.day = d ∧ x.ticker = tk) ∧ L < d := by
  constructor
  · intro hmem
    obtain ⟨r, hrf, hkr⟩ := List.mem_map.mp hmem
    have hrf' : r ∈ (silverCompute sq (dailyAgg now
        (b.filter fun z => L - 1 ≤ z.day))).filter (fun r => L < r.trade_date) := hrf
    obtain ⟨hrrows, hrdate⟩ := List.mem_filter.mp hrf'
    simp only [decide_eq_true_eq] at hrdate
    obtain ⟨x, hxdaily, hx⟩ := List.mem_map.mp hrrows
    obtain ⟨kd, hkddedup, hkdx⟩ := List.mem_map.mp hxdaily
    obtain ⟨y, hy, hykd⟩ := List.mem_map.mp (List.mem_dedup.mp hkddedup)
    obtain ⟨hyb, _⟩ := List.mem_filter.mp hy
    subst hykd
    subst hkdx
    subst hx
    have hkr' : (y.day, y.ticker) = (d, tk) := hkr
    have h1 : y.day = d := congrArg Prod.fst hkr'
    have h2 : y.ticker = tk := congrArg Prod.snd hkr'
    have hLy : L < y.day := hrdate
    exact ⟨⟨y, hyb, h1, h2⟩, h1 ▸ hLy⟩
  · rintro ⟨⟨y, hyb, hyd, hyt⟩, hLd⟩
    have hkd : (d, tk) ∈ ((b.filter fun z => L - 1 ≤ z.day).map
        fun z => (z.day, z.ticker)).dedup := by
      refine List.mem_dedup.mpr (List.mem_map.mpr
        ⟨y, List.mem_filter.mpr ⟨hyb, ?_⟩, by rw [hyd, hyt]⟩)
      simp only [decide_eq_true_eq]
      omega
    obtain ⟨x, hxdaily, hxd, hxt⟩ :
        ∃ x ∈ dailyAgg now (b.filter fun z => L - 1 ≤ z.day),
          x.trade_date = d ∧ x.ticker = tk :=
      ⟨_, List.mem_map.mpr ⟨(d, tk), hkd, rfl⟩, rfl, rfl⟩
    refine List.mem_map.mpr ⟨silverRowOf sq
      (partOf (dailyAgg now (b.filter fun z => L - 1 ≤ z.day)) x.ticker) x, ?_,
      by rw [silverKey_silverRowOf, hxd, hxt]⟩
    show silverRowOf sq _ x ∈ (silverCompute sq (dailyAgg now
        (b.filter fun z => L - 1 ≤ z.day))).filter (fun r => L < r.trade_date)
    refine List.mem_filter.mpr ⟨List.mem_map.mpr ⟨x, hxdaily, rfl⟩, ?_⟩
    simp only [decide_eq_true_eq]
    show L < x.trade_date
    omega

/-- An upsert merge can only grow the key set: every source key is present
after the merge. -/
lemma mem_keys_silverMerge {target src : List SilverRowFull} {k : ℤ × String}
    (h : k ∈ src.map silverKey) : k ∈ (silverMerge target src).map silverKey := by
  by_cases ht : k ∈ target.map silverKey
  · have hkeys : (target.map fun t =>
        match src.find? (fun s => s.trade_date = t.trade_date ∧ s.ticker = t.ticker) with
        | some s => s
        | none => t).map silverKey = target.map silverKey := by
      rw [List.map_map]
      refine List.map_congr_left fun t _ => ?_
      simp only [Function.comp]
      cases hf : src.find? fun s => s.trade_date = t.trade_date ∧ s.ticker = t.ticker with
      | none => simp [hf]
      | some s' =>
        have hp := List.find?_some hf
        simp only [decide_eq_true_eq] at hp
        simp [hf, silverKey, hp.1, hp.2]
    rw [silverMerge, List.map_append, List.mem_append]
    refine Or.inl ?_
    rw [hkeys]
    exact ht
  · obtain ⟨s0, hs0, hk⟩ := List.mem_map.mp h
    have hnm : (target.any fun t =>
        t.trade_date = s0.trade_date ∧ t.ticker = s0.ticker) = false := by
      by_contra hc
      rw [Bool.not_eq_false, List.any_eq_true] at hc
      obtain ⟨t, htm, htp⟩ := hc
      simp only [decide_eq_true_eq] at htp
      exact ht (List.mem_map.mpr ⟨t, htm, by rw [← hk]; simp [silverKey, htp.1, htp.2]⟩)
    rw [silverMerge, List.map_append, List.mem_append]
    refine Or.inr (List.mem_map.mpr ⟨s0, ?_, hk⟩)
    refine List.mem_filter.mpr ⟨hs0, ?_⟩
    simp only [decide_eq_true_eq, hnm]
    exact Bool.false_ne_true

/-- When no source row is new, an upsert merge preserves the row count and
the dates of the rows (each matched row is replaced by a source row with
the same key). -/
lemma silverMerge_dates (target src : List SilverRowFull)
    (hnil : src.filter (fun s => ¬ target.any fun t =>
      t.trade_date = s.trade_date ∧ t.ticker = s.ticker) = []) :
    (silverMerge target src).map (·.trade_date) = target.map (·.trade_date) ∧
    (silverMerge target src).length = target.length := by
  rw [silverMerge, hnil, List.append_nil]
  constructor
  · rw [List.map_map]
    refine List.map_congr_left fun t _ => ?_
    simp only [Function.comp]
    cases hf : src.find? fun s => s.trade_date = t.trade_date ∧ s.ticker = t.ticker with
    | none => simp [hf]
    | some s' =>
      have hp := List.find?_some hf
      simp only [decide_eq_true_eq] at hp
      simp [hf, hp.1]
  · simp

/-- Re-running the Silver stage with unchanged Bronze data (and a run date
not earlier than the first) merges no new row and leaves every stored
`trade_date` — hence the watermark — unchanged. -/
lemma silverRun_idem (today today' now now' : ℤ) (sq : ℚ → ℚ)
    (bronze : List BronzeBar) (silver0 : List SilverRowFull)
    (h : today ≤ today') :
    (silverRun today' now' sq bronze (silverRun today now sq bronze silver0)).length
        = (silverRun today now sq bronze silver0).length ∧
    (silverRun today' now' sq bronze (silverRun today now sq bronze silver0)).map
        (·.trade_date)
      = (silverRun today now sq bronze silver0).map (·.trade_date) := by
  by_cases hg2 : (bronze.any fun b => getLastTradeDate today' < b.day) = true
  · have hg1 : (bronze.any fun b => getLastTradeDate today < b.day) = true := by
      rw [List.any_eq_true] at hg2 ⊢
      obtain ⟨b, hb, hd⟩ := hg2
      simp only [decide_eq_true_eq, getLastTradeDate] at *
      exact ⟨b, hb, by omega⟩
    have hnil : (silverSource sq now' bronze (some (getLastTradeDate today'))).filter
        (fun s => ¬ (silverRun today now sq bronze silver0).any fun t =>
          t.trade_date = s.trade_date ∧ t.ticker = s.ticker) = [] := by
      rw [List.filter_eq_nil_iff]
      intro r hrmem
      have hk2 : (r.trade_date, r.ticker)
          ∈ (silverSource sq now' bronze (some (getLastTradeDate today'))).map silverKey :=
        List.mem_map.mpr ⟨r, hrmem, rfl⟩
      rw [mem_keys_silverSource] at hk2
      obtain ⟨⟨x, hx, hxd, hxt⟩, hLd⟩ := hk2
      have hk1 : (r.trade_date, r.ticker)
          ∈ (silverSource sq now bronze (some (getLastTradeDate today))).map silverKey := by
        rw [mem_keys_silverSource]
        refine ⟨⟨x, hx, hxd, hxt⟩, ?_⟩
        simp only [getLastTradeDate] at *
        omega
      have hks1 : (r.trade_date, r.ticker)
          ∈ (silverRun today now sq bronze silver0).map silverKey := by
        rw [silverRun, if_pos hg1]
        exact mem_keys_silverMerge hk1
      obtain ⟨t, htmem, htk⟩ := List.mem_map.mp hks1
      have ht1 : t.trade_date = r.trade_date := congrArg Prod.fst htk
      have ht2 : t.ticker = r.ticker := congrArg Prod.snd htk
      simp only [decide_eq_true_eq, not_not]
      exact List.any_eq_true.mpr ⟨t, htmem, by simp [ht1, ht2]⟩
    have hm := silverMerge_dates (silverRun today now sq bronze silver0)
      (silverSource sq now' bronze (some (getLastTradeDate today'))) hnil
    have hrw : silverRun today' now' sq bronze (silverRun today now sq bronze silver0)
        = silverMerge (silverRun today now sq bronze silver0)
            (silverSource sq now' bronze (some (getLastTradeDate today'))) := by
      rw [silverRun, if_pos hg2]
    rw [hrw]
    exact ⟨hm.2, hm.1⟩
  · have hrw : silverRun today' now' sq bronze (silverRun today now sq bronze silver0)
        = silverRun today now sq bronze silver0 := by
      rw [silverRun, if_neg hg2]
    rw [hrw]
    exact ⟨rfl, rfl⟩

/-- C7: idempotence.  With no new upstream data, re-running the Silver
stage merges zero new rows (row count unchanged) and leaves every stored
`trade_date` — hence the watermark, the maximum materialized date —
unchanged; re-running the Gold stage is the identity on the Gold state. -/
theorem stage_idempotence (today today' now now' : ℤ) (sq : ℚ → ℚ)
    (bronze : List BronzeBar) (silver0 : List SilverRowFull)
    (gold : List GoldRow) (silverTab : List SilverBar)
    (h : today ≤ today') :
    ((silverRun today' now' sq bronze (silverRun today now sq bronze silver0)).length
        = (silverRun today now sq bronze silver0).length ∧
     (silverRun today' now' sq bronze (silverRun today now sq bronze silver0)).map
        (·.trade_date)
       = (silverRun today now sq bronze silver0).map (·.trade_date)) ∧
    goldRun today' sq (goldRun today sq gold silverTab) silverTab
      = goldRun today sq gold silverTab :=
  ⟨silverRun_idem today today' now now' sq bronze silver0 h,
   goldRun_idem today today' sq gold silverTab h⟩

section ConcreteEvaluation6

attribute [local semireducible] Rat.add Rat.mul Rat.inv Rat.sub

set_option maxRecDepth 1000000

/-- A Bronze bar within the Silver stage's 30-day window at run date 20300. -/
def recentBar : BronzeBar :=
  { day := 20299, tod := 0, ticker := "AAPL", open_p := 1, high := 1, low := 1,
    close := 1, volume := 1, ingested_at := 0 }

/-- Witness for C7 at a concrete input. -/
theorem stage_idempotence_witness :
    (20300 : ℤ) ≤ 20301 ∧
    (silverRun 20301 2 sqZero [recentBar]
        (silverRun 20300 1 sqZero [recentBar] [])).length
      = (silverRun 20300 1 sqZero [recentBar] []).length ∧
    goldRun 20301 sqZero (goldRun 20300 sqZero [] [s294, s295]) [s294, s295]
      = goldRun 20300 sqZero [] [s294, s295] :=
  ⟨by decide,
   (stage_idempotence 20300 20301 1 2 sqZero [recentBar] [] [] [s294, s295]
     (by decide)).1.1,
   (stage_idempotence 20300 20301 1 2 sqZero [recentBar] [] [] [s294, s295]
     (by decide)).2⟩

end ConcreteEvaluation6

end BigFive
